import Mathlib

/-!
# Verification of the schema-inference engine of `mydataanalyst.py`

A shallow embedding of the column-classification pass
(`DataAnalystAgent.analyze_structure`), the sidebar row filters, the derived
top metrics and the five visualization slots of the dashboard script, together
with theorems settling the specification's claims about them.

Tables are column-major: a `Table` is the ordered list of its columns, each
column carrying its name, its pandas dtype and its list of cell values.
Machine floats of the source are modelled as integers (`Int`): no claim under
consideration depends on fractional numeric values, only on sums, comparisons
and distinct counts.  Timestamp parsing (`pd.to_datetime` with
`errors='coerce'`) is parameterized by a function `parse : Value → Option Int`
giving, for each cell value, its parsed epoch or `none` when unparseable; the
coercion of an unparseable value to missing (`NaT`) is then explicit.
-/

set_option maxRecDepth 10000

namespace MyDataAnalyst

/-- The pandas dtypes the classifier distinguishes: `np.number` subtypes,
`np.datetime64` subtypes, `object` (text), and everything else
(bool, category, ...), which matches none of the dtype tests. -/
inductive Dtype where
  | number
  | datetime64
  | object
  | other
deriving DecidableEq, Repr

/-- A cell value: a number, a parsed timestamp (epoch), a text value, or
missing (`NaN` / `NaT` / `None`). -/
inductive Value where
  | num (q : Int)
  | ts (t : Int)
  | text (s : String)
  | missing
deriving DecidableEq, Repr

/-- A dataframe column: its name, dtype and cell values (top to bottom). -/
structure Column where
  name : String
  dtype : Dtype
  values : List Value
deriving DecidableEq, Repr

/-- A dataframe, column-major, in left-to-right column order. -/
abbrev Table := List Column

/-- The classifier's output dictionary
`{"time": None, "user": None, "rev": None, "dimensions": [], "numeric": []}`. -/
structure Cols where
  time : Option String
  user : Option String
  rev : Option String
  dimensions : List String
  numeric : List String
deriving DecidableEq, Repr

/-- The initial dictionary built by `DataAnalystAgent.__init__`. -/
def initCols : Cols := ⟨none, none, none, [], []⟩

/-- Python truthiness of an optional column name: `None` and the empty
string are falsy, any other string is truthy. -/
def truthy : Option String → Bool
  | none => false
  | some s => s ≠ ""

/-- Whether list `pat` is a prefix of list `l`. -/
def listStarts : List Char → List Char → Bool
  | [], _ => true
  | _ :: _, [] => false
  | a :: as, b :: bs => a == b && listStarts as bs

/-- Whether list `pat` occurs contiguously inside list `l`. -/
def listHasSub (pat : List Char) : List Char → Bool
  | [] => pat.isEmpty
  | a :: rest => listStarts pat (a :: rest) || listHasSub pat rest

/-- `str(col).lower().strip()` — the cleaned column name, as its character
list (lower-cased, surrounding whitespace dropped). -/
def cleanName (s : String) : List Char :=
  let low := s.data.map Char.toLower
  ((low.dropWhile Char.isWhitespace).reverse.dropWhile Char.isWhitespace).reverse

/-- `any(x in clean for x in pats)` — Python's substring test against each
pattern. -/
def nameAny (clean : List Char) (pats : List String) : Bool :=
  pats.any (fun p => listHasSub p.data clean)

/-- The name substrings of the time rule. -/
def timeNames : List String := ["date", "time", "created"]

/-- The name substrings of the revenue rule. -/
def revNames : List String := ["revenue", "amount", "price", "sales", "cost"]

/-- The name substrings of the user rule. -/
def userNames : List String := ["user_id", "customer_id", "email", "uid"]

/-- The time rule's match condition: cleaned name contains a time substring,
or the column's dtype is already a datetime type. -/
def timeMatch (c : Column) : Bool :=
  nameAny (cleanName c.name) timeNames || c.dtype == .datetime64

/-- One cell of `pd.to_datetime(series, errors='coerce')`: the parsed
timestamp when parsing succeeds, missing (`NaT`) when it fails. -/
def toDatetimeCoerce (parse : Value → Option Int) (v : Value) : Value :=
  match parse v with
  | some t => Value.ts t
  | none => Value.missing

/-- `self.df[col] = pd.to_datetime(self.df[col], errors='coerce')`: every
value of the column is parsed (unparseable values coerced to missing) and the
column's dtype becomes datetime. -/
def convertCol (parse : Value → Option Int) (c : Column) : Column :=
  { c with dtype := .datetime64, values := c.values.map (toDatetimeCoerce parse) }

/-- `series.nunique()`: the number of distinct values, missing values
excluded (pandas' default `dropna=True`). -/
def nunique (c : Column) : Nat :=
  ((c.values.filter (fun v => v ≠ Value.missing)).dedup).length

/-- Guard of the revenue rule:
`not self.cols["rev"] and any(name match) and np.issubdtype(dtype, np.number)`. -/
def revRuleFires (st : Cols) (c : Column) : Bool :=
  !(truthy st.rev) && nameAny (cleanName c.name) revNames && c.dtype == .number

/-- Guard of the user rule:
`not self.cols["user"] and any(name match)`. -/
def userRuleFires (st : Cols) (c : Column) : Bool :=
  !(truthy st.user) && nameAny (cleanName c.name) userNames

/-- The `elif` chain that follows the time rule: revenue, user, generic
numeric and dimension detection, in that order (first match wins, at most
one branch updates the dictionary). -/
def laterRulesStep (st : Cols) (c : Column) : Cols :=
  if revRuleFires st c then
    { st with rev := some c.name, numeric := st.numeric ++ [c.name] }
  else if userRuleFires st c then
    { st with user := some c.name }
  else if c.dtype == .number then
    { st with numeric := st.numeric ++ [c.name] }
  else if nunique c < 100 && c.dtype == .object then
    { st with dimensions := st.dimensions ++ [c.name] }
  else st

/-- One iteration of the `for col in self.df.columns` loop of
`analyze_structure`: the time rule first (which also rewrites the column in
place), then the `elif` chain.  Returns the updated dictionary and the
(possibly rewritten) column. -/
def analyzeStep (parse : Value → Option Int) (st : Cols) (c : Column) :
    Cols × Column :=
  if !(truthy st.time) && timeMatch c then
    ({ st with time := some c.name }, convertCol parse c)
  else
    (laterRulesStep st c, c)

/-- The classification loop over the remaining columns, threading the
dictionary and rewriting columns in place. -/
def analyzeGo (parse : Value → Option Int) (st : Cols) : Table → Cols × Table
  | [] => (st, [])
  | c :: rest =>
    ((analyzeGo parse (analyzeStep parse st c).1 rest).1,
     (analyzeStep parse st c).2 :: (analyzeGo parse (analyzeStep parse st c).1 rest).2)

/-- `DataAnalystAgent(df).analyze_structure()`: scans the columns left to
right once, starting from the empty dictionary; returns the role dictionary
and the stored (possibly time-converted) table. -/
def analyze (parse : Value → Option Int) (tbl : Table) : Cols × Table :=
  analyzeGo parse initCols tbl

/-- How many of the four grouping roles {time, user, revenue, dimensions}
hold the column name `n`. -/
def roleCount (st : Cols) (n : String) : Nat :=
  (if st.time = some n then 1 else 0) + (if st.user = some n then 1 else 0) +
    (if st.rev = some n then 1 else 0) + (if n ∈ st.dimensions then 1 else 0)

/-- The name `n` appears somewhere in the role dictionary. -/
def mentioned (st : Cols) (n : String) : Prop :=
  st.time = some n ∨ st.user = some n ∨ st.rev = some n ∨
    n ∈ st.dimensions ∨ n ∈ st.numeric

instance (st : Cols) (n : String) : Decidable (mentioned st n) := by
  unfold mentioned; infer_instance

/-- The column matches none of the five classification rules, whatever the
dictionary state: its name misses the time, revenue and user substrings,
its dtype is neither datetime nor numeric, and it fails the dimension
test. -/
def matchesNoRule (c : Column) : Prop :=
  timeMatch c = false ∧
  (nameAny (cleanName c.name) revNames && (c.dtype == Dtype.number)) = false ∧
  nameAny (cleanName c.name) userNames = false ∧
  c.dtype ≠ Dtype.number ∧
  (decide (nunique c < 100) && (c.dtype == Dtype.object)) = false

instance (c : Column) : Decidable (matchesNoRule c) := by
  unfold matchesNoRule; infer_instance

/-! ## Table access, filtering and aggregation helpers -/

/-- `df[name]`: the first column of that name (names coming from
`pd.read_csv` are distinct, duplicates are mangled by the reader). -/
def getCol (tbl : Table) (name : String) : Option Column :=
  tbl.find? (fun c => c.name == name)

/-- The values of column `name` (empty when absent). -/
def colVals (tbl : Table) (name : String) : List Value :=
  ((getCol tbl name).map Column.values).getD []

/-- The number of rows of the frame. -/
def nrows : Table → Nat
  | [] => 0
  | c :: _ => c.values.length

/-- The numeric content of a cell; missing and non-numeric cells yield
`none` and are skipped by pandas' aggregations. -/
def numVal : Value → Option Int
  | Value.num q => some q
  | _ => none

/-- `series.sum()`: sum of the numeric values, missing values skipped,
`0` on an empty column. -/
def sumVals (vs : List Value) : Int :=
  (vs.filterMap numVal).sum

/-- Keep the values of `vs` whose mask bit is true (boolean row indexing). -/
def applyMask : List Bool → List Value → List Value
  | b :: bs, v :: vs =>
    if b then v :: applyMask bs vs else applyMask bs vs
  | _, _ => []

/-- `df[pred(df[name])]`: keep exactly the rows at which the value of
column `name` satisfies `p`. -/
def filterRowsBy (tbl : Table) (name : String) (p : Value → Bool) : Table :=
  let mask := (colVals tbl name).map p
  tbl.map (fun c => { c with values := applyMask mask c.values })

/-- A datetime cell within `[lo, hi]`; comparisons against `NaT` (missing)
and non-datetime cells are false, so such rows are dropped. -/
def dateKeep (lo hi : Int) : Value → Bool
  | Value.ts t => lo ≤ t && t ≤ hi
  | _ => false

/-- The distinct non-missing values of a list, in first-appearance order
(pandas group keys before sorting; missing keys are dropped by
`groupby`'s default `dropna=True`). -/
def distinctKeys (vs : List Value) : List Value :=
  (vs.filter (fun v => v ≠ Value.missing)).dedup

/-- `df.groupby(x)[y].sum()`: for each distinct non-missing key of `xs`,
the sum of the numeric `ys` entries of the rows holding that key. -/
def groupSum (xs ys : List Value) : List (Value × Int) :=
  (distinctKeys xs).map (fun k =>
    (k, sumVals ((xs.zip ys).filterMap
      (fun p => if p.1 == k then some p.2 else none))))

/-- `.sort_values(y, ascending=False)`: sort the pairs by value,
descending.  The source's quicksort leaves the order of ties unspecified;
this model fixes them by a stable insertion sort, which no claim
distinguishes. -/
def sortValsDesc (l : List (Value × Int)) : List (Value × Int) :=
  l.insertionSort (fun a b => b.2 ≤ a.2)

/-- `series.value_counts()`: occurrence counts of the distinct non-missing
values, sorted descending by count. -/
def valueCounts (vs : List Value) : List (Value × Int) :=
  sortValsDesc ((distinctKeys vs).map (fun k => (k, (vs.count k : Int))))

/-! ## Derived top metrics (lines 97–104 of the script) -/

/-- The four top metrics.  `arpu` is `none` when the metric is not
rendered. -/
structure Metrics where
  rows : Nat
  totalRev : Int
  activeUsers : Nat
  arpu : Option ℚ
deriving DecidableEq, Repr

/-- `rev = df_filtered[cols["rev"]].sum() if cols["rev"] else 0`. -/
def totalRevOf (st : Cols) (tbl : Table) : Int :=
  if truthy st.rev then sumVals (colVals tbl (st.rev.getD "")) else 0

/-- `users = df_filtered[cols["user"]].nunique() if cols["user"] else 0`. -/
def activeUsersOf (st : Cols) (tbl : Table) : Nat :=
  if truthy st.user then
    (((colVals tbl (st.user.getD "")).filter (fun v => v ≠ Value.missing)).dedup).length
  else 0

/-- The four top metrics over the filtered rows; the ARPU metric is
rendered only under `if cols["rev"] and cols["user"] and users > 0`. -/
def topMetrics (st : Cols) (tbl : Table) : Metrics :=
  { rows := nrows tbl
    totalRev := totalRevOf st tbl
    activeUsers := activeUsersOf st tbl
    arpu :=
      if truthy st.rev && truthy st.user && decide (0 < activeUsersOf st tbl) then
        some ((totalRevOf st tbl : ℚ) / (activeUsersOf st tbl : ℚ))
      else none }

/-! ## The five visualization slots (lines 112–175 of the script) -/

/-- What a slot produces: a resolved chart, an explicit unavailable signal
(`st.info(...)`), nothing at all (a guard with no `else` branch renders
nothing), or a raised exception (caught only by the script's outermost
handler). -/
inductive SlotResult (α : Type) where
  | chart (a : α)
  | infoMsg (m : String)
  | silent
  | err
deriving DecidableEq, Repr

/-- A resolved grouped chart: its x column, its y column (or the synthetic
`"Count"`), and its aggregated, ordered, truncated data. -/
structure ChartSpec where
  xCol : String
  yCol : String
  data : List (Value × Int)
deriving DecidableEq, Repr

/-- A resolved scatter chart. -/
structure ScatterSpec where
  xAxis : String
  yAxis : String
  colorBy : Option String
  points : List (Value × Value)
deriving DecidableEq, Repr

/-- The caller-chosen slot parameters the widgets feed in: the shared
"Group By" selection, the distribution metric, the two scatter axes, the
optional scatter color dimension, and the granularity's time-bucketing
map (`resample` of `D`/`W`/`M` groups timestamps by calendar bucket). -/
structure SlotParams where
  sliceCol : String
  distCol : String
  xAxis : String
  yAxis : String
  colorChoice : Option String
  bucket : Int → Int

/-- `metric_to_plot = cols["rev"] if cols["rev"] else
(cols["numeric"][0] if cols["numeric"] else None)`. -/
def metricToPlot (st : Cols) : Option String :=
  if truthy st.rev then st.rev
  else
    match st.numeric with
    | [] => none
    | n :: _ => some n

/-- Bucket the datetime cells of the time column by the granularity map;
non-datetime cells become missing and their rows are dropped by the
grouping, as `resample` drops a `NaT` index.  (Empty buckets that
`resample` would interpolate with zero sums are omitted; no claim
concerns them.) -/
def bucketTime (bucket : Int → Int) (v : Value) : Value :=
  match v with
  | Value.ts t => Value.ts (bucket t)
  | _ => Value.missing

/-- Trends over Time (lines 112–122): info signal when no time column;
when a time column exists but no metric is plottable, the guarded block
renders nothing. -/
def timeTrendSlot (st : Cols) (tbl : Table) (p : SlotParams) :
    SlotResult ChartSpec :=
  if truthy st.time then
    if truthy (metricToPlot st) then
      let m := (metricToPlot st).getD ""
      SlotResult.chart
        { xCol := st.time.getD ""
          yCol := m
          data := groupSum ((colVals tbl (st.time.getD "")).map (bucketTime p.bucket))
                    (colVals tbl m) }
    else SlotResult.silent
  else SlotResult.infoMsg "No Time Column Found"

/-- Slice by Category (lines 124–140): groups by the shared selection;
metric is revenue when assigned, else a plain row count; top 10 by value,
descending. -/
def breakdownSlot (st : Cols) (tbl : Table) (p : SlotParams) :
    SlotResult ChartSpec :=
  if st.dimensions ≠ [] then
    if truthy st.rev then
      let m := st.rev.getD ""
      SlotResult.chart
        { xCol := p.sliceCol
          yCol := m
          data := (sortValsDesc (groupSum (colVals tbl p.sliceCol) (colVals tbl m))).take 10 }
    else
      SlotResult.chart
        { xCol := p.sliceCol
          yCol := "Count"
          data := (valueCounts (colVals tbl p.sliceCol)).take 10 }
  else SlotResult.infoMsg "No Categories Found"

/-- Ranking Top Segments (lines 145–153): reuses the breakdown's grouping
selection; `y_col = cols["rev"] if cols["rev"] else cols["numeric"][0]`
raises `IndexError` when revenue is unassigned and `numeric` is empty; no
`else` branch, so an empty `dimensions` renders nothing. -/
def rankedBarSlot (st : Cols) (tbl : Table) (p : SlotParams) :
    SlotResult ChartSpec :=
  if st.dimensions ≠ [] then
    if truthy st.rev then
      let y := st.rev.getD ""
      SlotResult.chart
        { xCol := p.sliceCol
          yCol := y
          data := (sortValsDesc (groupSum (colVals tbl p.sliceCol) (colVals tbl y))).take 15 }
    else
      match st.numeric with
      | [] => SlotResult.err
      | y :: _ =>
        SlotResult.chart
          { xCol := p.sliceCol
            yCol := y
            data := (sortValsDesc (groupSum (colVals tbl p.sliceCol) (colVals tbl y))).take 15 }
  else SlotResult.silent

/-- Distribution & Outliers (lines 155–160): box plot of the chosen
numeric column's raw values; no `else` branch, so an empty `numeric`
renders nothing. -/
def distributionSlot (st : Cols) (tbl : Table) (p : SlotParams) :
    SlotResult (String × List Value) :=
  if st.numeric ≠ [] then
    SlotResult.chart (p.distCol, colVals tbl p.distCol)
  else SlotResult.silent

/-- Correlation Lab (lines 162–175): scatter of two chosen numeric
columns with an optional color dimension; info signal when fewer than two
numeric columns exist. -/
def correlationSlot (st : Cols) (tbl : Table) (p : SlotParams) :
    SlotResult ScatterSpec :=
  if st.numeric.length > 1 then
    SlotResult.chart
      { xAxis := p.xAxis
        yAxis := p.yAxis
        colorBy := p.colorChoice
        points := (colVals tbl p.xAxis).zip (colVals tbl p.yAxis) }
  else SlotResult.infoMsg "Need at least 2 numeric columns for correlation analysis."

/-- The outputs of the five slots for one render pass. -/
structure SlotOutputs where
  timeTrend : SlotResult ChartSpec
  breakdown : SlotResult ChartSpec
  rankedBar : SlotResult ChartSpec
  distribution : SlotResult (String × List Value)
  correlation : SlotResult ScatterSpec

/-- One render pass of the visualization grid: all five slots, resolved
from the role dictionary, the filtered frame and the shared widget
choices (the single `slice_col` value feeds both the breakdown and the
ranked-bar slot). -/
def resolveSlots (st : Cols) (tbl : Table) (p : SlotParams) : SlotOutputs :=
  { timeTrend := timeTrendSlot st tbl p
    breakdown := breakdownSlot st tbl p
    rankedBar := rankedBarSlot st tbl p
    distribution := distributionSlot st tbl p
    correlation := correlationSlot st tbl p }

/-! ## Sidebar row filters and the full pipeline (lines 67–104) -/

/-- The sidebar's filter state: an optional `[start, end]` date range (a
range of any other length applies no filter) and an optional segment
selection (a dimension column plus the multiselected values; an empty
selection applies no filter). -/
structure FilterParams where
  dateRange : Option (Int × Int)
  dimSel : Option (String × List Value)

/-- Lines 76–83: when a time column exists and the range has both ends,
keep the rows whose time value lies inside it. -/
def applyDateFilter (st : Cols) (fp : FilterParams) (tbl : Table) : Table :=
  if truthy st.time then
    match fp.dateRange with
    | some r => filterRowsBy tbl (st.time.getD "") (dateKeep r.1 r.2)
    | none => tbl
  else tbl

/-- Lines 85–91: when dimensions exist and a segment with a non-empty
value selection is chosen, keep the rows whose value is in the
selection. -/
def applyDimFilter (st : Cols) (fp : FilterParams) (tbl : Table) : Table :=
  if st.dimensions ≠ [] then
    match fp.dimSel with
    | some sel =>
      if sel.1 ∈ st.dimensions ∧ sel.2 ≠ [] then
        filterRowsBy tbl sel.1 (fun v => sel.2.contains v)
      else tbl
    | none => tbl
  else tbl

/-- Everything the script hands to the presentation layer for one
interaction. -/
structure Dashboard where
  cols : Cols
  metrics : Metrics
  slots : SlotOutputs

/-- The row subset the sidebar filters leave: the date filter, then the
segment filter, applied to the stored (classified) frame. -/
def filteredTable (parse : Value → Option Int) (tbl : Table)
    (fp : FilterParams) : Table :=
  applyDimFilter (analyze parse tbl).1 fp
    (applyDateFilter (analyze parse tbl).1 fp (analyze parse tbl).2)

/-- The whole per-interaction pipeline: classify once, filter the stored
frame by the sidebar state, then compute the top metrics and the five
slots over the filtered rows.  The role dictionary is computed before any
filtering and is never touched again. -/
def runDashboard (parse : Value → Option Int) (tbl : Table)
    (fp : FilterParams) (sp : SlotParams) : Dashboard :=
  { cols := (analyze parse tbl).1
    metrics := topMetrics (analyze parse tbl).1 (filteredTable parse tbl fp)
    slots := resolveSlots (analyze parse tbl).1 (filteredTable parse tbl fp) sp }

/-! ## Concrete tables and parameters used as test vectors -/

/-- A parse map under which no value is a parseable timestamp. -/
def parse0 : Value → Option Int := fun _ => none

/-- A parse map recognizing the single literal `"2020-01-01"`. -/
def parse1 : Value → Option Int := fun v =>
  match v with
  | Value.text s => if s = "2020-01-01" then some 100 else none
  | _ => none

/-- The spec's example table `id, price, cost, category` where the three
first columns are numeric and `category` is text with 150 distinct
values. -/
def tableC3 : Table :=
  [ ⟨"id", Dtype.number, (List.range 150).map (fun i => Value.num i)⟩,
    ⟨"price", Dtype.number, (List.range 150).map (fun i => Value.num (10 * i))⟩,
    ⟨"cost", Dtype.number, (List.range 150).map (fun i => Value.num (5 * i))⟩,
    ⟨"category", Dtype.object, (List.range 150).map (fun i => Value.text (toString i))⟩ ]

/-- A table whose only column is a low-cardinality text column: a
dimension exists but neither revenue nor any numeric measure does. -/
def oneTextTbl : Table :=
  [ ⟨"region", Dtype.object, [Value.text "a", Value.text "b", Value.text "a"]⟩ ]

/-- A table whose only column is date-named text: a time column is
assigned but no numeric measure exists. -/
def dateOnlyTbl : Table :=
  [ ⟨"date", Dtype.object, [Value.text "x"]⟩ ]

/-- A table with two date-named columns. -/
def twoDateTbl : Table :=
  [ ⟨"order_date", Dtype.object, [Value.text "2020-01-01"]⟩,
    ⟨"ship_date", Dtype.object, [Value.text "2020-01-02"]⟩ ]

/-- A table exercising all four roles at once. -/
def fullTbl : Table :=
  [ ⟨"order_date", Dtype.object, [Value.text "2020-01-01", Value.text "junk"]⟩,
    ⟨"customer_id", Dtype.object, [Value.text "u1", Value.text "u2"]⟩,
    ⟨"amount", Dtype.number, [Value.num 5, Value.num 7]⟩,
    ⟨"region", Dtype.object, [Value.text "n", Value.text "s"]⟩ ]

/-- A table with one unclassifiable column next to a revenue column. -/
def unmatchedTbl : Table :=
  [ ⟨"z", Dtype.other, [Value.text "x", Value.text "y"]⟩,
    ⟨"amount", Dtype.number, [Value.num 1, Value.num 2]⟩ ]

/-- A text column with two distinct non-missing values plus a missing
value, next to a time column. -/
def missingDimTbl : Table :=
  [ ⟨"cat", Dtype.object, [Value.text "a", Value.missing, Value.text "b"]⟩ ]

/-- A single numeric column. -/
def oneNumTbl : Table :=
  [ ⟨"x", Dtype.number, [Value.num 1, Value.num 2]⟩ ]

/-- Fixed widget choices for the test vectors. -/
def sp0 : SlotParams := ⟨"region", "", "", "", none, id⟩

/-- An empty sidebar state. -/
def fp0 : FilterParams := ⟨none, none⟩

/-! ## Structural lemmas about one classification step -/

theorem laterRulesStep_time (st : Cols) (c : Column) :
    (laterRulesStep st c).time = st.time := by
  unfold laterRulesStep
  split
  · rfl
  · split
    · rfl
    · split
      · rfl
      · split
        · rfl
        · rfl

theorem analyzeStep_of_time_truthy (parse : Value → Option Int) (st : Cols)
    (c : Column) (h : truthy st.time = true) :
    analyzeStep parse st c = (laterRulesStep st c, c) := by
  unfold analyzeStep
  simp [h]

/-- Exactly one of the six outcomes of a classification step happens, each
recorded together with the guards that let it fire. -/
theorem analyzeStep_shape (parse : Value → Option Int) (st : Cols) (c : Column) :
    ((analyzeStep parse st c).1 = { st with time := some c.name } ∧
      truthy st.time = false ∧ timeMatch c = true) ∨
    ((analyzeStep parse st c).1 =
        { st with rev := some c.name, numeric := st.numeric ++ [c.name] } ∧
      truthy st.rev = false ∧ nameAny (cleanName c.name) revNames = true ∧
      c.dtype = Dtype.number) ∨
    ((analyzeStep parse st c).1 = { st with user := some c.name } ∧
      truthy st.user = false ∧ nameAny (cleanName c.name) userNames = true) ∨
    ((analyzeStep parse st c).1 = { st with numeric := st.numeric ++ [c.name] } ∧
      c.dtype = Dtype.number) ∨
    ((analyzeStep parse st c).1 = { st with dimensions := st.dimensions ++ [c.name] } ∧
      c.dtype = Dtype.object ∧ nunique c < 100) ∨
    (analyzeStep parse st c).1 = st := by
  unfold analyzeStep laterRulesStep revRuleFires userRuleFires
  split
  · next h =>
    simp only [Bool.and_eq_true, Bool.not_eq_true'] at h
    exact Or.inl ⟨rfl, h.1, h.2⟩
  · split
    · next h =>
      simp only [Bool.and_eq_true, Bool.not_eq_true', beq_iff_eq] at h
      exact Or.inr (Or.inl ⟨rfl, h.1.1, h.1.2, h.2⟩)
    · split
      · next h =>
        simp only [Bool.and_eq_true, Bool.not_eq_true'] at h
        exact Or.inr (Or.inr (Or.inl ⟨rfl, h.1, h.2⟩))
      · split
        · next h =>
          simp only [beq_iff_eq] at h
          exact Or.inr (Or.inr (Or.inr (Or.inl ⟨rfl, h⟩)))
        · split
          · next h =>
            simp only [Bool.and_eq_true, beq_iff_eq, decide_eq_true_eq] at h
            exact Or.inr (Or.inr (Or.inr (Or.inr (Or.inl ⟨rfl, h.2, h.1⟩))))
          · exact Or.inr (Or.inr (Or.inr (Or.inr (Or.inr rfl))))

theorem revNames_empty : nameAny (cleanName "") revNames = false := by decide

theorem userNames_empty : nameAny (cleanName "") userNames = false := by decide

theorem analyzeStep_dims_sub (parse : Value → Option Int) (st : Cols)
    (c : Column) (n : String) (h : n ∈ st.dimensions) :
    n ∈ (analyzeStep parse st c).1.dimensions := by
  rcases analyzeStep_shape parse st c with
    ⟨he, -⟩ | ⟨he, -⟩ | ⟨he, -⟩ | ⟨he, -⟩ | ⟨he, -⟩ | he <;>
    rw [he] <;> simp [h]

theorem analyzeStep_numeric_sub (parse : Value → Option Int) (st : Cols)
    (c : Column) (n : String) (h : n ∈ st.numeric) :
    n ∈ (analyzeStep parse st c).1.numeric := by
  rcases analyzeStep_shape parse st c with
    ⟨he, -⟩ | ⟨he, -⟩ | ⟨he, -⟩ | ⟨he, -⟩ | ⟨he, -⟩ | he <;>
    rw [he] <;> simp [h]

theorem analyzeStep_rev_persist (parse : Value → Option Int) (st : Cols)
    (c : Column) (h : truthy st.rev = true) :
    (analyzeStep parse st c).1.rev = st.rev := by
  rcases analyzeStep_shape parse st c with
    ⟨he, -⟩ | ⟨he, hf, -⟩ | ⟨he, -⟩ | ⟨he, -⟩ | ⟨he, -⟩ | he <;>
    first
    | (rw [h] at hf; exact absurd hf (by simp))
    | (rw [he])

theorem analyzeStep_user_persist (parse : Value → Option Int) (st : Cols)
    (c : Column) (h : truthy st.user = true) :
    (analyzeStep parse st c).1.user = st.user := by
  rcases analyzeStep_shape parse st c with
    ⟨he, -⟩ | ⟨he, -⟩ | ⟨he, hf, -⟩ | ⟨he, -⟩ | ⟨he, -⟩ | he <;>
    first
    | (rw [h] at hf; exact absurd hf (by simp))
    | (rw [he])

theorem analyzeStep_mentioned (parse : Value → Option Int) (st : Cols)
    (c : Column) (n : String) (h : mentioned (analyzeStep parse st c).1 n) :
    mentioned st n ∨ n = c.name := by
  rcases analyzeStep_shape parse st c with
    ⟨he, -⟩ | ⟨he, -⟩ | ⟨he, -⟩ | ⟨he, -⟩ | ⟨he, -⟩ | he <;>
    rw [he] at h <;> unfold mentioned at h ⊢
  · rcases h with h | h | h | h | h
    · exact Or.inr (Option.some.inj h).symm
    · exact Or.inl (Or.inr (Or.inl h))
    · exact Or.inl (Or.inr (Or.inr (Or.inl h)))
    · exact Or.inl (Or.inr (Or.inr (Or.inr (Or.inl h))))
    · exact Or.inl (Or.inr (Or.inr (Or.inr (Or.inr h))))
  · rcases h with h | h | h | h | h
    · exact Or.inl (Or.inl h)
    · exact Or.inl (Or.inr (Or.inl h))
    · exact Or.inr (Option.some.inj h).symm
    · exact Or.inl (Or.inr (Or.inr (Or.inr (Or.inl h))))
    · rcases List.mem_append.mp h with h | h
      · exact Or.inl (Or.inr (Or.inr (Or.inr (Or.inr h))))
      · exact Or.inr (List.mem_singleton.mp h)
  · rcases h with h | h | h | h | h
    · exact Or.inl (Or.inl h)
    · exact Or.inr (Option.some.inj h).symm
    · exact Or.inl (Or.inr (Or.inr (Or.inl h)))
    · exact Or.inl (Or.inr (Or.inr (Or.inr (Or.inl h))))
    · exact Or.inl (Or.inr (Or.inr (Or.inr (Or.inr h))))
  · rcases h with h | h | h | h | h
    · exact Or.inl (Or.inl h)
    · exact Or.inl (Or.inr (Or.inl h))
    · exact Or.inl (Or.inr (Or.inr (Or.inl h)))
    · exact Or.inl (Or.inr (Or.inr (Or.inr (Or.inl h))))
    · rcases List.mem_append.mp h with h | h
      · exact Or.inl (Or.inr (Or.inr (Or.inr (Or.inr h))))
      · exact Or.inr (List.mem_singleton.mp h)
  · rcases h with h | h | h | h | h
    · exact Or.inl (Or.inl h)
    · exact Or.inl (Or.inr (Or.inl h))
    · exact Or.inl (Or.inr (Or.inr (Or.inl h)))
    · rcases List.mem_append.mp h with h | h
      · exact Or.inl (Or.inr (Or.inr (Or.inr (Or.inl h))))
      · exact Or.inr (List.mem_singleton.mp h)
    · exact Or.inl (Or.inr (Or.inr (Or.inr (Or.inr h))))
  · exact Or.inl h

theorem analyzeStep_rev_sub_numeric (parse : Value → Option Int) (st : Cols)
    (c : Column) (h : ∀ n, st.rev = some n → n ∈ st.numeric) :
    ∀ n, (analyzeStep parse st c).1.rev = some n →
      n ∈ (analyzeStep parse st c).1.numeric := by
  intro n hn
  rcases analyzeStep_shape parse st c with
    ⟨he, -⟩ | ⟨he, -⟩ | ⟨he, -⟩ | ⟨he, -⟩ | ⟨he, -⟩ | he <;>
    rw [he] at hn ⊢
  · exact h n hn
  · exact List.mem_append.mpr (Or.inr
      (List.mem_singleton.mpr (Option.some.inj hn).symm))
  · exact h n hn
  · exact List.mem_append.mpr (Or.inl (h n hn))
  · exact h n hn
  · exact h n hn

theorem analyzeStep_rev_ne_empty (parse : Value → Option Int) (st : Cols)
    (c : Column) (h : st.rev ≠ some "") :
    (analyzeStep parse st c).1.rev ≠ some "" := by
  rcases analyzeStep_shape parse st c with
    ⟨he, -⟩ | ⟨he, -, hg, -⟩ | ⟨he, -⟩ | ⟨he, -⟩ | ⟨he, -⟩ | he <;>
    rw [he] <;> try exact h
  · intro hc
    simp only [Option.some.injEq] at hc
    rw [hc] at hg
    rw [revNames_empty] at hg
    exact absurd hg (by simp)

theorem analyzeStep_user_ne_empty (parse : Value → Option Int) (st : Cols)
    (c : Column) (h : st.user ≠ some "") :
    (analyzeStep parse st c).1.user ≠ some "" := by
  rcases analyzeStep_shape parse st c with
    ⟨he, -⟩ | ⟨he, -⟩ | ⟨he, -, hg⟩ | ⟨he, -⟩ | ⟨he, -⟩ | he <;>
    rw [he] <;> try exact h
  · intro hc
    simp only [Option.some.injEq] at hc
    rw [hc] at hg
    rw [userNames_empty] at hg
    exact absurd hg (by simp)

/-! ## Invariants of the whole classification loop -/

theorem analyzeGo_length (parse : Value → Option Int) (tbl : Table) (st : Cols) :
    (analyzeGo parse st tbl).2.length = tbl.length := by
  induction tbl generalizing st with
  | nil => rfl
  | cons c rest ih =>
    simp only [analyzeGo, List.length_cons]
    rw [ih]

theorem analyzeGo_time_persist (parse : Value → Option Int) (tbl : Table)
    (st : Cols) (h : truthy st.time = true) :
    (analyzeGo parse st tbl).1.time = st.time ∧ (analyzeGo parse st tbl).2 = tbl := by
  induction tbl generalizing st with
  | nil => exact ⟨rfl, rfl⟩
  | cons c rest ih =>
    have hstep := analyzeStep_of_time_truthy parse st c h
    have ht : (laterRulesStep st c).time = st.time := laterRulesStep_time st c
    have h2 : truthy (laterRulesStep st c).time = true := by rw [ht]; exact h
    have hr := ih (laterRulesStep st c) h2
    simp only [analyzeGo, hstep]
    exact ⟨by rw [hr.1, ht], by rw [hr.2]⟩

theorem analyzeGo_dims_mono (parse : Value → Option Int) (tbl : Table)
    (st : Cols) (n : String) (h : n ∈ st.dimensions) :
    n ∈ (analyzeGo parse st tbl).1.dimensions := by
  induction tbl generalizing st with
  | nil => exact h
  | cons c rest ih =>
    simp only [analyzeGo]
    exact ih _ (analyzeStep_dims_sub parse st c n h)

theorem analyzeGo_numeric_mono (parse : Value → Option Int) (tbl : Table)
    (st : Cols) (n : String) (h : n ∈ st.numeric) :
    n ∈ (analyzeGo parse st tbl).1.numeric := by
  induction tbl generalizing st with
  | nil => exact h
  | cons c rest ih =>
    simp only [analyzeGo]
    exact ih _ (analyzeStep_numeric_sub parse st c n h)

theorem analyzeGo_rev_sub_numeric (parse : Value → Option Int) (tbl : Table)
    (st : Cols) (h : ∀ n, st.rev = some n → n ∈ st.numeric) :
    ∀ n, (analyzeGo parse st tbl).1.rev = some n →
      n ∈ (analyzeGo parse st tbl).1.numeric := by
  induction tbl generalizing st with
  | nil => exact h
  | cons c rest ih =>
    simp only [analyzeGo]
    exact ih _ (analyzeStep_rev_sub_numeric parse st c h)

theorem analyzeGo_rev_ne_empty (parse : Value → Option Int) (tbl : Table)
    (st : Cols) (h : st.rev ≠ some "") :
    (analyzeGo parse st tbl).1.rev ≠ some "" := by
  induction tbl generalizing st with
  | nil => exact h
  | cons c rest ih =>
    simp only [analyzeGo]
    exact ih _ (analyzeStep_rev_ne_empty parse st c h)

theorem analyzeGo_user_ne_empty (parse : Value → Option Int) (tbl : Table)
    (st : Cols) (h : st.user ≠ some "") :
    (analyzeGo parse st tbl).1.user ≠ some "" := by
  induction tbl generalizing st with
  | nil => exact h
  | cons c rest ih =>
    simp only [analyzeGo]
    exact ih _ (analyzeStep_user_ne_empty parse st c h)

theorem analyzeGo_mentioned (parse : Value → Option Int) (tbl : Table)
    (st : Cols) (n : String) (h : mentioned (analyzeGo parse st tbl).1 n) :
    mentioned st n ∨ ∃ c ∈ tbl, c.name = n := by
  induction tbl generalizing st with
  | nil => exact Or.inl h
  | cons c rest ih =>
    simp only [analyzeGo] at h
    rcases ih _ h with h2 | ⟨c2, hc2, he2⟩
    · rcases analyzeStep_mentioned parse st c n h2 with h3 | h3
      · exact Or.inl h3
      · exact Or.inr ⟨c, List.mem_cons_self c rest, h3.symm⟩
    · exact Or.inr ⟨c2, List.mem_cons_of_mem c hc2, he2⟩

theorem analyzeStep_time_eq_or (parse : Value → Option Int) (st : Cols) (c : Column) :
    (analyzeStep parse st c).1.time = st.time ∨
      (analyzeStep parse st c).1.time = some c.name := by
  rcases analyzeStep_shape parse st c with
    ⟨he, -⟩ | ⟨he, -⟩ | ⟨he, -⟩ | ⟨he, -⟩ | ⟨he, -⟩ | he <;> rw [he]
  · exact Or.inr rfl
  all_goals exact Or.inl rfl

theorem analyzeGo_time_mem (parse : Value → Option Int) (tbl : Table) (st : Cols) :
    (analyzeGo parse st tbl).1.time = st.time ∨
      ∃ c ∈ tbl, (analyzeGo parse st tbl).1.time = some c.name := by
  induction tbl generalizing st with
  | nil => exact Or.inl rfl
  | cons c rest ih =>
    simp only [analyzeGo]
    rcases ih (analyzeStep parse st c).1 with h | ⟨c2, hc2, he2⟩
    · rcases analyzeStep_time_eq_or parse st c with ht | ht <;> rw [ht] at h
      · exact Or.inl h
      · exact Or.inr ⟨c, List.mem_cons_self c rest, h⟩
    · exact Or.inr ⟨c2, List.mem_cons_of_mem c hc2, he2⟩

theorem analyzeGo_cols_parse_indep (parse parse2 : Value → Option Int)
    (tbl : Table) (st : Cols) :
    (analyzeGo parse st tbl).1 = (analyzeGo parse2 st tbl).1 := by
  induction tbl generalizing st with
  | nil => rfl
  | cons c rest ih =>
    have hstep : (analyzeStep parse st c).1 = (analyzeStep parse2 st c).1 := by
      unfold analyzeStep
      split <;> rfl
    simp only [analyzeGo]
    rw [hstep]
    exact ih _

theorem analyzeStep_roleCount (parse : Value → Option Int) (st : Cols) (c : Column)
    (hfresh : ¬ mentioned st c.name) (hex : ∀ n, roleCount st n ≤ 1) :
    ∀ n, roleCount (analyzeStep parse st c).1 n ≤ 1 := by
  intro n
  unfold mentioned at hfresh
  push_neg at hfresh
  obtain ⟨hft, hfu, hfr, hfd, -⟩ := hfresh
  have hxn := hex n
  unfold roleCount at hxn
  rcases analyzeStep_shape parse st c with
    ⟨he, -⟩ | ⟨he, -⟩ | ⟨he, -⟩ | ⟨he, -⟩ | ⟨he, -⟩ | he <;>
    rw [he] <;> unfold roleCount
  · by_cases hn : n = c.name
    · subst hn
      rw [if_pos rfl, if_neg hfu, if_neg hfr, if_neg hfd]
    · have hne : (some c.name : Option String) ≠ some n :=
        fun e => hn (Option.some.inj e).symm
      rw [if_neg hne]
      split_ifs at hxn ⊢ <;> omega
  · by_cases hn : n = c.name
    · subst hn
      rw [if_neg hft, if_neg hfu, if_pos rfl, if_neg hfd]
    · have hne : (some c.name : Option String) ≠ some n :=
        fun e => hn (Option.some.inj e).symm
      rw [if_neg hne]
      split_ifs at hxn ⊢ <;> omega
  · by_cases hn : n = c.name
    · subst hn
      rw [if_neg hft, if_pos rfl, if_neg hfr, if_neg hfd]
    · have hne : (some c.name : Option String) ≠ some n :=
        fun e => hn (Option.some.inj e).symm
      rw [if_neg hne]
      split_ifs at hxn ⊢ <;> omega
  · exact hxn
  · by_cases hn : n = c.name
    · subst hn
      rw [if_neg hft, if_neg hfu, if_neg hfr,
        if_pos (List.mem_append.mpr (Or.inr (List.mem_singleton.mpr rfl)))]
    · have hmem : (n ∈ st.dimensions ++ [c.name]) ↔ n ∈ st.dimensions := by
        simp only [List.mem_append, List.mem_singleton]
        exact or_iff_left hn
      rw [if_congr hmem rfl rfl]
      split_ifs at hxn ⊢ <;> omega
  · exact hxn

theorem analyzeGo_roleCount (parse : Value → Option Int) (tbl : Table) :
    ∀ st : Cols, (∀ c ∈ tbl, ¬ mentioned st c.name) →
    (tbl.map Column.name).Nodup → (∀ n, roleCount st n ≤ 1) →
    ∀ n, roleCount (analyzeGo parse st tbl).1 n ≤ 1 := by
  induction tbl with
  | nil => exact fun st _ _ hex n => hex n
  | cons c rest ih =>
    intro st hfresh hnd hex n
    simp only [List.map_cons, List.nodup_cons] at hnd
    simp only [analyzeGo]
    apply ih
    · intro c2 hc2 hm
      rcases analyzeStep_mentioned parse st c c2.name hm with h | h
      · exact hfresh c2 (List.mem_cons_of_mem c hc2) h
      · exact hnd.1 (h ▸ List.mem_map_of_mem Column.name hc2)
    · exact hnd.2
    · exact analyzeStep_roleCount parse st c (hfresh c (List.mem_cons_self c rest)) hex

/-- C1: classification assigns each column to at most one of
{time, user, revenue, dimensions} (a single left-to-right pass with
mutually exclusive rules), and an assigned revenue column is always a
member of `numericMeasures`. -/
theorem roles_mutually_exclusive_and_rev_in_numeric (parse : Value → Option Int)
    (tbl : Table) (hnd : (tbl.map Column.name).Nodup) :
    (∀ n, roleCount (analyze parse tbl).1 n ≤ 1) ∧
    (∀ n, (analyze parse tbl).1.rev = some n →
      n ∈ (analyze parse tbl).1.numeric) := by
  constructor
  · exact analyzeGo_roleCount parse tbl initCols
      (fun c _ hm => by simp [mentioned, initCols] at hm) hnd
      (fun n => by simp [roleCount, initCols])
  · exact analyzeGo_rev_sub_numeric parse tbl initCols
      (fun n h => by simp [initCols] at h)

/-- C1, witnessed on a concrete four-role table. -/
theorem roles_mutually_exclusive_witness :
    (fullTbl.map Column.name).Nodup ∧
    roleCount (analyze parse1 fullTbl).1 "amount" ≤ 1 ∧
    "amount" ∈ (analyze parse1 fullTbl).1.numeric :=
  ⟨by decide,
   (roles_mutually_exclusive_and_rev_in_numeric parse1 fullTbl (by decide)).1 "amount",
   (roles_mutually_exclusive_and_rev_in_numeric parse1 fullTbl (by decide)).2 "amount"
     (by decide)⟩

theorem analyzeGo_time_first (parse : Value → Option Int) :
    ∀ (tbl : Table) (st : Cols), st.time = none →
    (∀ c ∈ tbl, c.name ≠ "") →
    ∀ (i : Nat) (hi : i < tbl.length), timeMatch (tbl.get ⟨i, hi⟩) = true →
    (∀ (k : Nat) (hk : k < tbl.length), k < i → timeMatch (tbl.get ⟨k, hk⟩) = false) →
    (analyzeGo parse st tbl).1.time = some (tbl.get ⟨i, hi⟩).name := by
  intro tbl
  induction tbl with
  | nil =>
    intro st _ _ i hi
    exact absurd hi (by simp)
  | cons c rest ih =>
    intro st hst hne i hi hm hfirst
    cases i with
    | zero =>
      have hguard : (!(truthy st.time) && timeMatch c) = true := by
        rw [hst]
        simp only [truthy, Bool.not_false, Bool.true_and]
        exact hm
      have hstep : (analyzeStep parse st c).1 = { st with time := some c.name } := by
        unfold analyzeStep
        rw [if_pos hguard]
      have hname : c.name ≠ "" := hne c (List.mem_cons_self c rest)
      have htruthy : truthy ({ st with time := some c.name }).time = true := by
        simp [truthy, hname]
      simp only [analyzeGo]
      rw [hstep, (analyzeGo_time_persist parse rest _ htruthy).1]
      rfl
    | succ k2 =>
      have hm0 : timeMatch c = false :=
        hfirst 0 (Nat.succ_pos _) (Nat.succ_pos k2)
      have hstep : (analyzeStep parse st c).1 = laterRulesStep st c := by
        unfold analyzeStep
        rw [if_neg (by rw [hm0]; simp)]
      have hst2 : (laterRulesStep st c).time = none := by
        rw [laterRulesStep_time]; exact hst
      simp only [analyzeGo]
      rw [hstep]
      exact ih (laterRulesStep st c) hst2
        (fun c2 hc2 => hne c2 (List.mem_cons_of_mem c hc2))
        k2 (Nat.lt_of_succ_lt_succ hi) hm
        (fun k hk hlt => hfirst (k + 1) (Nat.succ_lt_succ hk) (Nat.succ_lt_succ hlt))

/-- C2: in a table with two or more columns matching the time rule, the
leftmost match is assigned to `time`; a later matching column is not
assigned to `time` (its name differs from the assigned one), and once
`time` is (truthily) assigned every further step reduces to the
revenue/user/numeric/dimension chain, so later matching columns fall
through to the later rules or stay unclassified. -/
theorem first_time_column_wins (parse : Value → Option Int) (tbl : Table)
    (hne : ∀ c ∈ tbl, c.name ≠ "")
    (hnd : (tbl.map Column.name).Nodup)
    (i j : Nat) (hi : i < tbl.length) (hj : j < tbl.length) (hij : i < j)
    (hmi : timeMatch (tbl.get ⟨i, hi⟩) = true)
    (hmj : timeMatch (tbl.get ⟨j, hj⟩) = true)
    (hfirst : ∀ (k : Nat) (hk : k < tbl.length), k < i →
      timeMatch (tbl.get ⟨k, hk⟩) = false) :
    (analyze parse tbl).1.time = some (tbl.get ⟨i, hi⟩).name ∧
    (analyze parse tbl).1.time ≠ some (tbl.get ⟨j, hj⟩).name ∧
    (∀ (st : Cols) (c : Column), truthy st.time = true →
      analyzeStep parse st c = (laterRulesStep st c, c)) := by
  have h1 : (analyze parse tbl).1.time = some (tbl.get ⟨i, hi⟩).name :=
    analyzeGo_time_first parse tbl initCols rfl hne i hi hmi hfirst
  refine ⟨h1, ?_, fun st c h => analyzeStep_of_time_truthy parse st c h⟩
  rw [h1]
  intro heq
  have hname : (tbl.get ⟨i, hi⟩).name = (tbl.get ⟨j, hj⟩).name :=
    Option.some.inj heq
  have hget : (tbl.map Column.name).get ⟨i, by rw [List.length_map]; exact hi⟩ =
      (tbl.map Column.name).get ⟨j, by rw [List.length_map]; exact hj⟩ := by
    rw [List.get_map, List.get_map]
    exact hname
  have := (List.Nodup.get_inj_iff hnd).mp hget
  simp only [Fin.mk.injEq] at this
  omega

/-- C2, witnessed on a table with two date-named columns. -/
theorem first_time_column_wins_witness :
    timeMatch (twoDateTbl.get ⟨0, by decide⟩) = true ∧
    timeMatch (twoDateTbl.get ⟨1, by decide⟩) = true ∧
    (analyze parse0 twoDateTbl).1.time = some "order_date" ∧
    (analyze parse0 twoDateTbl).1.time ≠ some "ship_date" := by
  have h := first_time_column_wins parse0 twoDateTbl (by decide) (by decide)
    0 1 (by decide) (by decide) (by decide) (by decide) (by decide)
    (fun k hk hlt => absurd hlt (Nat.not_lt_zero k))
  exact ⟨by decide, by decide, h.1, h.2.1⟩

/-- C3 counterexample: on the `id, price, cost, category` example table the
classifier's `numericMeasures` is not `[price, cost]` — the numeric `id`
column matches no earlier rule and is collected as a numeric measure
too. -/
theorem tableC3_numeric_counterexample :
    (analyze parse0 tableC3).1.numeric ≠ ["price", "cost"] := by decide

/-- C3 (amended): on the `id, price, cost, category` example table (with
`category` text of 150 distinct values), classification yields
`revenue = price`, `numericMeasures = [id, price, cost]` and
`dimensions = []` (category exceeds the cardinality threshold and is
unclassified); the breakdown slot signals unavailable and the ranked-bar
slot renders nothing. -/
theorem tableC3_classification :
    (analyze parse0 tableC3).1 =
      { time := none, user := none, rev := some "price", dimensions := [],
        numeric := ["id", "price", "cost"] } ∧
    (resolveSlots (analyze parse0 tableC3).1 (analyze parse0 tableC3).2 sp0).breakdown =
      SlotResult.infoMsg "No Categories Found" ∧
    (resolveSlots (analyze parse0 tableC3).1 (analyze parse0 tableC3).2 sp0).rankedBar =
      SlotResult.silent := by
  exact ⟨by decide, by decide, by decide⟩

/-! ## The ranked-bar slot -/

theorem sortValsDesc_sorted (l : List (Value × Int)) :
    List.Sorted (fun a b : Value × Int => b.2 ≤ a.2) (sortValsDesc l) := by
  haveI : IsTotal (Value × Int) (fun a b => b.2 ≤ a.2) :=
    ⟨fun a b => Int.le_total b.2 a.2⟩
  haveI : IsTrans (Value × Int) (fun a b => b.2 ≤ a.2) :=
    ⟨fun a b c hab hbc => Int.le_trans hbc hab⟩
  exact List.sorted_insertionSort _ l

theorem sortValsDesc_take_sorted (l : List (Value × Int)) (n : Nat) :
    List.Sorted (fun a b : Value × Int => b.2 ≤ a.2) ((sortValsDesc l).take n) :=
  List.Pairwise.sublist (List.take_sublist n (sortValsDesc l)) (sortValsDesc_sorted l)

/-- C4 (amended): whenever `dimensions` is non-empty and, in addition,
revenue is assigned or `numericMeasures` is non-empty, the ranked-bar slot
resolves to a chart grouped by the same column as the breakdown slot, with
metric = revenue if assigned else the first `numericMeasures` entry,
aggregated by sum and truncated to the top 15 groups by value in
descending order.  (When `dimensions` is non-empty but revenue is
unassigned and `numericMeasures` is empty, the slot raises an
`IndexError` instead of resolving — see the counterexample.) -/
theorem ranked_bar_slot_resolution (st : Cols) (tbl : Table) (p : SlotParams)
    (hdim : st.dimensions ≠ [])
    (hm : truthy st.rev = true ∨ st.numeric ≠ []) :
    ∃ y : String,
      (truthy st.rev = true → st.rev = some y) ∧
      (truthy st.rev = false → st.numeric.head? = some y) ∧
      (resolveSlots st tbl p).rankedBar = SlotResult.chart
        { xCol := p.sliceCol
          yCol := y
          data := (sortValsDesc (groupSum (colVals tbl p.sliceCol)
            (colVals tbl y))).take 15 } ∧
      (∃ b : ChartSpec, (resolveSlots st tbl p).breakdown = SlotResult.chart b ∧
        b.xCol = p.sliceCol) ∧
      ((sortValsDesc (groupSum (colVals tbl p.sliceCol) (colVals tbl y))).take 15).length ≤ 15 ∧
      List.Sorted (fun a b : Value × Int => b.2 ≤ a.2)
        ((sortValsDesc (groupSum (colVals tbl p.sliceCol) (colVals tbl y))).take 15) := by
  have hbd : ∃ b : ChartSpec, (resolveSlots st tbl p).breakdown = SlotResult.chart b ∧
      b.xCol = p.sliceCol := by
    unfold resolveSlots breakdownSlot
    by_cases hr : truthy st.rev = true
    · exact ⟨_, by rw [if_pos hdim, if_pos hr], rfl⟩
    · exact ⟨_, by rw [if_pos hdim, if_neg hr], rfl⟩
  by_cases hr : truthy st.rev = true
  · cases hrev : st.rev with
    | none =>
      rw [hrev] at hr
      exact absurd hr (by simp [truthy])
    | some s =>
      rw [hrev] at hr
      refine ⟨s, fun _ => rfl, fun hf => ?_, ?_, hbd, ?_, ?_⟩
      · rw [hf] at hr; exact absurd hr Bool.false_ne_true
      · unfold resolveSlots rankedBarSlot
        rw [hrev, if_pos hdim, if_pos hr]
        rfl
      · rw [List.length_take]; exact Nat.min_le_left _ _
      · exact sortValsDesc_take_sorted _ 15
  · have hnum : st.numeric ≠ [] := by
      rcases hm with hm | hm
      · exact absurd hm hr
      · exact hm
    cases hnumm : st.numeric with
    | nil => exact absurd hnumm hnum
    | cons y rest =>
      refine ⟨y, fun h => absurd h hr, fun _ => rfl, ?_, hbd, ?_, ?_⟩
      · unfold resolveSlots rankedBarSlot
        rw [hnumm, if_pos hdim, if_neg hr]
      · rw [List.length_take]; exact Nat.min_le_left _ _
      · exact sortValsDesc_take_sorted _ 15

/-- C4 counterexample: a table whose single column is a low-cardinality
text column yields a non-empty `dimensions` with no revenue and no
numeric measure; the ranked-bar slot then raises (`cols["numeric"][0]`
is an `IndexError`) instead of being available. -/
theorem ranked_bar_err_counterexample :
    (analyze parse0 oneTextTbl).1.dimensions ≠ [] ∧
    (resolveSlots (analyze parse0 oneTextTbl).1 (analyze parse0 oneTextTbl).2
      sp0).rankedBar = SlotResult.err :=
  ⟨by decide, by decide⟩

/-- C4, witnessed on a table with a revenue column and a dimension. -/
theorem ranked_bar_slot_resolution_witness :
    (analyze parse1 fullTbl).1.dimensions ≠ [] ∧
    ∃ y : String,
      (truthy (analyze parse1 fullTbl).1.rev = true →
        (analyze parse1 fullTbl).1.rev = some y) ∧
      (truthy (analyze parse1 fullTbl).1.rev = false →
        (analyze parse1 fullTbl).1.numeric.head? = some y) ∧
      (resolveSlots (analyze parse1 fullTbl).1 (analyze parse1 fullTbl).2
        sp0).rankedBar = SlotResult.chart
        { xCol := sp0.sliceCol
          yCol := y
          data := (sortValsDesc (groupSum
            (colVals (analyze parse1 fullTbl).2 sp0.sliceCol)
            (colVals (analyze parse1 fullTbl).2 y))).take 15 } ∧
      (∃ b : ChartSpec,
        (resolveSlots (analyze parse1 fullTbl).1 (analyze parse1 fullTbl).2
          sp0).breakdown = SlotResult.chart b ∧ b.xCol = sp0.sliceCol) ∧
      ((sortValsDesc (groupSum (colVals (analyze parse1 fullTbl).2 sp0.sliceCol)
        (colVals (analyze parse1 fullTbl).2 y))).take 15).length ≤ 15 ∧
      List.Sorted (fun a b : Value × Int => b.2 ≤ a.2)
        ((sortValsDesc (groupSum (colVals (analyze parse1 fullTbl).2 sp0.sliceCol)
          (colVals (analyze parse1 fullTbl).2 y))).take 15) :=
  ⟨by decide,
   ranked_bar_slot_resolution (analyze parse1 fullTbl).1 (analyze parse1 fullTbl).2
     sp0 (by decide) (Or.inl (by decide))⟩

/-! ## Unavailable-slot signalling -/

theorem analyze_rev_none_of_numeric_nil (parse : Value → Option Int)
    (tbl : Table) (hn : (analyze parse tbl).1.numeric = []) :
    (analyze parse tbl).1.rev = none := by
  cases hr : (analyze parse tbl).1.rev with
  | none => rfl
  | some n =>
    have hmem : n ∈ (analyze parse tbl).1.numeric :=
      analyzeGo_rev_sub_numeric parse tbl initCols
        (fun m hm => by simp [initCols] at hm) n hr
    rw [hn] at hmem
    exact absurd hmem (List.not_mem_nil n)

/-- C5 (amended): the breakdown and correlation slots, and the time-trend
slot when no time column is assigned, signal unavailability explicitly;
but the ranked-bar and distribution slots render nothing at all when
unavailable, and the time-trend slot renders nothing when a time column
is assigned on a table with no numeric measure (and hence no revenue). -/
theorem unavailable_slot_signals (parse : Value → Option Int) (tbl tblF : Table)
    (p : SlotParams) :
    ((analyze parse tbl).1.dimensions = [] →
      (resolveSlots (analyze parse tbl).1 tblF p).breakdown =
        SlotResult.infoMsg "No Categories Found" ∧
      (resolveSlots (analyze parse tbl).1 tblF p).rankedBar = SlotResult.silent) ∧
    ((analyze parse tbl).1.numeric.length ≤ 1 →
      (resolveSlots (analyze parse tbl).1 tblF p).correlation =
        SlotResult.infoMsg "Need at least 2 numeric columns for correlation analysis.") ∧
    ((analyze parse tbl).1.numeric = [] →
      (resolveSlots (analyze parse tbl).1 tblF p).distribution = SlotResult.silent) ∧
    (truthy (analyze parse tbl).1.time = false →
      (resolveSlots (analyze parse tbl).1 tblF p).timeTrend =
        SlotResult.infoMsg "No Time Column Found") ∧
    ((analyze parse tbl).1.numeric = [] → truthy (analyze parse tbl).1.time = true →
      (resolveSlots (analyze parse tbl).1 tblF p).timeTrend = SlotResult.silent) := by
  refine ⟨fun hd => ⟨?_, ?_⟩, fun hc => ?_, fun hn => ?_, fun ht => ?_, fun hn ht => ?_⟩
  · show breakdownSlot _ _ _ = _
    unfold breakdownSlot
    rw [if_neg (fun hne => hne hd)]
  · show rankedBarSlot _ _ _ = _
    unfold rankedBarSlot
    rw [if_neg (fun hne => hne hd)]
  · show correlationSlot _ _ _ = _
    unfold correlationSlot
    rw [if_neg (by omega)]
  · show distributionSlot _ _ _ = _
    unfold distributionSlot
    rw [if_neg (fun hne => hne hn)]
  · show timeTrendSlot _ _ _ = _
    unfold timeTrendSlot
    rw [if_neg (by simp [ht])]
  · have hrev := analyze_rev_none_of_numeric_nil parse tbl hn
    have hmp : metricToPlot (analyze parse tbl).1 = none := by
      unfold metricToPlot
      rw [hrev, hn]
      rfl
    show timeTrendSlot _ _ _ = _
    unfold timeTrendSlot
    rw [if_pos ht, if_neg (by simp [hmp, truthy])]

/-- C5 counterexample: a table whose single column is date-named text has
a time column assigned and zero numeric columns, yet the distribution
slot and the time-trend slot render nothing instead of reporting
unavailability (and the ranked-bar slot is likewise silently empty). -/
theorem unavailable_slots_silent_counterexample :
    (analyze parse0 dateOnlyTbl).1.numeric = [] ∧
    truthy (analyze parse0 dateOnlyTbl).1.time = true ∧
    (resolveSlots (analyze parse0 dateOnlyTbl).1 (analyze parse0 dateOnlyTbl).2
      sp0).distribution = SlotResult.silent ∧
    (resolveSlots (analyze parse0 dateOnlyTbl).1 (analyze parse0 dateOnlyTbl).2
      sp0).timeTrend = SlotResult.silent ∧
    (resolveSlots (analyze parse0 dateOnlyTbl).1 (analyze parse0 dateOnlyTbl).2
      sp0).rankedBar = SlotResult.silent := by
  exact ⟨by decide, by decide, by decide, by decide, by decide⟩

/-- C5, witnessed on two concrete tables. -/
theorem unavailable_slot_signals_witness :
    (resolveSlots (analyze parse0 dateOnlyTbl).1 (analyze parse0 dateOnlyTbl).2
      sp0).breakdown = SlotResult.infoMsg "No Categories Found" ∧
    (resolveSlots (analyze parse0 dateOnlyTbl).1 (analyze parse0 dateOnlyTbl).2
      sp0).timeTrend = SlotResult.silent ∧
    (resolveSlots (analyze parse0 oneNumTbl).1 (analyze parse0 oneNumTbl).2
      sp0).timeTrend = SlotResult.infoMsg "No Time Column Found" ∧
    (resolveSlots (analyze parse0 oneNumTbl).1 (analyze parse0 oneNumTbl).2
      sp0).correlation =
      SlotResult.infoMsg "Need at least 2 numeric columns for correlation analysis." :=
  ⟨((unavailable_slot_signals parse0 dateOnlyTbl (analyze parse0 dateOnlyTbl).2
      sp0).1 (by decide)).1,
   (unavailable_slot_signals parse0 dateOnlyTbl (analyze parse0 dateOnlyTbl).2
      sp0).2.2.2.2 (by decide) (by decide),
   (unavailable_slot_signals parse0 oneNumTbl (analyze parse0 oneNumTbl).2
      sp0).2.2.2.1 (by decide),
   (unavailable_slot_signals parse0 oneNumTbl (analyze parse0 oneNumTbl).2
      sp0).2.1 (by decide)⟩

/-! ## The ARPU metric -/

theorem analyze_truthy_rev_iff (parse : Value → Option Int) (tbl : Table) :
    truthy (analyze parse tbl).1.rev = (analyze parse tbl).1.rev.isSome := by
  cases hr : (analyze parse tbl).1.rev with
  | none => rfl
  | some s =>
    have hne : (analyze parse tbl).1.rev ≠ some "" :=
      analyzeGo_rev_ne_empty parse tbl initCols (by simp [initCols])
    rw [hr] at hne
    have hs : s ≠ "" := fun h => hne (by rw [h])
    simp [truthy, hs]

theorem analyze_truthy_user_iff (parse : Value → Option Int) (tbl : Table) :
    truthy (analyze parse tbl).1.user = (analyze parse tbl).1.user.isSome := by
  cases hr : (analyze parse tbl).1.user with
  | none => rfl
  | some s =>
    have hne : (analyze parse tbl).1.user ≠ some "" :=
      analyzeGo_user_ne_empty parse tbl initCols (by simp [initCols])
    rw [hr] at hne
    have hs : s ≠ "" := fun h => hne (by rw [h])
    simp [truthy, hs]

theorem topMetrics_arpu_def (st : Cols) (tbl : Table) :
    (topMetrics st tbl).arpu =
      if truthy st.rev && truthy st.user && decide (0 < activeUsersOf st tbl) then
        some ((totalRevOf st tbl : ℚ) / (activeUsersOf st tbl : ℚ))
      else none := rfl

theorem topMetrics_arpu_iff (st : Cols) (tblF : Table)
    (hr : truthy st.rev = st.rev.isSome) (hu : truthy st.user = st.user.isSome) :
    ((topMetrics st tblF).arpu.isSome = true ↔
      (st.rev.isSome = true ∧ st.user.isSome = true ∧
        0 < (topMetrics st tblF).activeUsers)) ∧
    (∀ q : ℚ, (topMetrics st tblF).arpu = some q →
      q = ((topMetrics st tblF).totalRev : ℚ) /
        ((topMetrics st tblF).activeUsers : ℚ)) := by
  have hact : (topMetrics st tblF).activeUsers = activeUsersOf st tblF := rfl
  have hrev : (topMetrics st tblF).totalRev = totalRevOf st tblF := rfl
  rw [topMetrics_arpu_def, hact, hrev]
  by_cases hcond : (truthy st.rev && truthy st.user &&
      decide (0 < activeUsersOf st tblF)) = true
  · rw [if_pos hcond]
    simp only [Bool.and_eq_true, decide_eq_true_eq, hr, hu] at hcond
    constructor
    · simp only [Option.isSome_some, true_iff]
      exact ⟨hcond.1.1, hcond.1.2, hcond.2⟩
    · intro q hq
      exact (Option.some.inj hq).symm
  · rw [if_neg hcond]
    simp only [Bool.and_eq_true, decide_eq_true_eq, hr, hu] at hcond
    constructor
    · simp only [Option.isSome_none, Bool.false_eq_true, false_iff]
      intro h
      exact hcond ⟨⟨h.1, h.2.1⟩, h.2.2⟩
    · intro q hq
      cases hq

/-- C6: the ARPU metric is present exactly when both a revenue and a user
column are assigned and the count of distinct users over the current row
subset is positive, in which case it equals total revenue divided by
active users; in every other case it is omitted, and no division is ever
attempted on a zero user count. -/
theorem arpu_defined_iff (parse : Value → Option Int) (tbl : Table)
    (fp : FilterParams) (sp : SlotParams) :
    ((runDashboard parse tbl fp sp).metrics.arpu.isSome = true ↔
      ((runDashboard parse tbl fp sp).cols.rev.isSome = true ∧
       (runDashboard parse tbl fp sp).cols.user.isSome = true ∧
       0 < (runDashboard parse tbl fp sp).metrics.activeUsers)) ∧
    (∀ q : ℚ, (runDashboard parse tbl fp sp).metrics.arpu = some q →
      q = ((runDashboard parse tbl fp sp).metrics.totalRev : ℚ) /
        ((runDashboard parse tbl fp sp).metrics.activeUsers : ℚ)) :=
  topMetrics_arpu_iff (analyze parse tbl).1 (filteredTable parse tbl fp)
    (analyze_truthy_rev_iff parse tbl) (analyze_truthy_user_iff parse tbl)

/-- C6, witnessed on a table with revenue and user columns. -/
theorem arpu_defined_iff_witness :
    ((runDashboard parse1 fullTbl fp0 sp0).metrics.arpu.isSome = true ↔
      ((runDashboard parse1 fullTbl fp0 sp0).cols.rev.isSome = true ∧
       (runDashboard parse1 fullTbl fp0 sp0).cols.user.isSome = true ∧
       0 < (runDashboard parse1 fullTbl fp0 sp0).metrics.activeUsers)) ∧
    (∀ q : ℚ, (runDashboard parse1 fullTbl fp0 sp0).metrics.arpu = some q →
      q = ((runDashboard parse1 fullTbl fp0 sp0).metrics.totalRev : ℚ) /
        ((runDashboard parse1 fullTbl fp0 sp0).metrics.activeUsers : ℚ)) :=
  arpu_defined_iff parse1 fullTbl fp0 sp0

/-! ## Totality and silent recovery of the classifier -/

theorem analyzeStep_no_rule (parse : Value → Option Int) (st : Cols)
    (c : Column) (h : matchesNoRule c) :
    analyzeStep parse st c = (st, c) := by
  obtain ⟨h1, h2, h3, h4, h5⟩ := h
  have hdn : (c.dtype == Dtype.number) = false := beq_eq_false_iff_ne.mpr h4
  have hrev : revRuleFires st c = false := by
    unfold revRuleFires
    rw [hdn, Bool.and_false]
  have huser : userRuleFires st c = false := by
    unfold userRuleFires
    rw [h3, Bool.and_false]
  unfold analyzeStep
  rw [if_neg (fun hc => Bool.false_ne_true (by rw [h1, Bool.and_false] at hc; exact hc))]
  unfold laterRulesStep
  rw [if_neg (fun hc => Bool.false_ne_true (hrev ▸ hc)),
    if_neg (fun hc => Bool.false_ne_true (huser ▸ hc)),
    if_neg (fun hc => Bool.false_ne_true (hdn ▸ hc)),
    if_neg (fun hc => Bool.false_ne_true (h5 ▸ hc))]

theorem analyzeGo_no_rule_not_mentioned (parse : Value → Option Int)
    (c : Column) : ∀ (tbl : Table) (st : Cols),
    (∀ c2 ∈ tbl, c2.name = c.name → matchesNoRule c2) →
    ¬ mentioned st c.name →
    ¬ mentioned (analyzeGo parse st tbl).1 c.name := by
  intro tbl
  induction tbl with
  | nil => exact fun st _ h => h
  | cons c2 rest ih =>
    intro st hall hst
    simp only [analyzeGo]
    apply ih _ (fun c3 h3 he => hall c3 (List.mem_cons_of_mem _ h3) he)
    intro hm
    by_cases hc2 : c2.name = c.name
    · have hno2 := hall c2 (List.mem_cons_self _ _) hc2
      rw [analyzeStep_no_rule parse st c2 hno2] at hm
      exact hst hm
    · rcases analyzeStep_mentioned parse st c2 c.name hm with h | h
      · exact hst h
      · exact hc2 h.symm

/-- C7: classification is total — it always returns a role dictionary and
a table of the same width; a column matching no rule is omitted from every
role; the roles never depend on which values parse as timestamps; and a
per-value parse failure is coerced to missing rather than raised. -/
theorem classify_total_and_silent (parse parse2 : Value → Option Int)
    (tbl : Table) (hnd : (tbl.map Column.name).Nodup)
    (c : Column) (hc : c ∈ tbl) (hno : matchesNoRule c) :
    (analyze parse tbl).2.length = tbl.length ∧
    (analyze parse tbl).1 = (analyze parse2 tbl).1 ∧
    ¬ mentioned (analyze parse tbl).1 c.name ∧
    (∀ v, parse v = none → toDatetimeCoerce parse v = Value.missing) := by
  refine ⟨analyzeGo_length parse tbl initCols,
    analyzeGo_cols_parse_indep parse parse2 tbl initCols, ?_,
    fun v hv => by unfold toDatetimeCoerce; rw [hv]⟩
  apply analyzeGo_no_rule_not_mentioned parse c tbl initCols ?_
    (by simp [mentioned, initCols])
  intro c2 h2 he
  have hcc : c2 = c := List.inj_on_of_nodup_map hnd h2 hc he
  rw [hcc]
  exact hno

/-- C7, witnessed on a table with an unclassifiable column. -/
theorem classify_total_and_silent_witness :
    (unmatchedTbl.map Column.name).Nodup ∧
    matchesNoRule ⟨"z", Dtype.other, [Value.text "x", Value.text "y"]⟩ ∧
    (analyze parse0 unmatchedTbl).2.length = unmatchedTbl.length ∧
    ¬ mentioned (analyze parse0 unmatchedTbl).1 "z" := by
  have h := classify_total_and_silent parse0 parse1 unmatchedTbl (by decide)
    ⟨"z", Dtype.other, [Value.text "x", Value.text "y"]⟩
    (by decide) (by decide)
  exact ⟨by decide, by decide, h.1, h.2.2.1⟩

/-! ## Row filtering never touches the role assignment -/

/-- C8: applying any sidebar filters (any date range, any segment
selection) leaves the role assignment identical to the one computed at
classification time — every role field is unchanged; only the row subset
fed to the derived aggregates differs. -/
theorem filtering_preserves_role_assignment (parse : Value → Option Int)
    (tbl : Table) (fp fp2 : FilterParams) (sp sp2 : SlotParams) :
    (runDashboard parse tbl fp sp).cols = (analyze parse tbl).1 ∧
    (runDashboard parse tbl fp sp).cols = (runDashboard parse tbl fp2 sp2).cols ∧
    (runDashboard parse tbl fp sp).cols.time = (analyze parse tbl).1.time ∧
    (runDashboard parse tbl fp sp).cols.user = (analyze parse tbl).1.user ∧
    (runDashboard parse tbl fp sp).cols.rev = (analyze parse tbl).1.rev ∧
    (runDashboard parse tbl fp sp).cols.numeric = (analyze parse tbl).1.numeric ∧
    (runDashboard parse tbl fp sp).cols.dimensions =
      (analyze parse tbl).1.dimensions :=
  ⟨rfl, rfl, rfl, rfl, rfl, rfl, rfl⟩

/-! ## The dimension rule counts distinct non-missing values -/

theorem analyzeGo_dim_rule (parse : Value → Option Int) (c : Column)
    (hdt : c.dtype = Dtype.object) (hnt : timeMatch c = false)
    (hnu : nameAny (cleanName c.name) userNames = false)
    (hcard : nunique c < 100) :
    ∀ (tbl : Table) (st : Cols), c ∈ tbl →
    c.name ∈ (analyzeGo parse st tbl).1.dimensions := by
  have hdn : (c.dtype == Dtype.number) = false := by rw [hdt]; rfl
  have hobj : (c.dtype == Dtype.object) = true := by rw [hdt]; rfl
  have hdim : (decide (nunique c < 100) && (c.dtype == Dtype.object)) = true := by
    rw [hobj, Bool.and_true, decide_eq_true_eq]
    exact hcard
  intro tbl
  induction tbl with
  | nil =>
    intro st hc
    cases hc
  | cons c2 rest ih =>
    intro st hc
    rcases List.mem_cons.mp hc with heq | hc2
    · subst heq
      have hrevf : revRuleFires st c = false := by
        unfold revRuleFires
        rw [hdn, Bool.and_false]
      have huserf : userRuleFires st c = false := by
        unfold userRuleFires
        rw [hnu, Bool.and_false]
      have hstep : (analyzeStep parse st c).1 =
          { st with dimensions := st.dimensions ++ [c.name] } := by
        unfold analyzeStep
        rw [if_neg (fun hcon => Bool.false_ne_true
          (by rw [hnt, Bool.and_false] at hcon; exact hcon))]
        show laterRulesStep st c = _
        unfold laterRulesStep
        rw [if_neg (fun hcon => Bool.false_ne_true (hrevf ▸ hcon)),
          if_neg (fun hcon => Bool.false_ne_true (huserf ▸ hcon)),
          if_neg (fun hcon => Bool.false_ne_true (hdn ▸ hcon)),
          if_pos hdim]
      simp only [analyzeGo]
      rw [hstep]
      exact analyzeGo_dims_mono parse rest _ c.name
        (List.mem_append.mpr (Or.inr (List.mem_singleton.mpr rfl)))
    · simp only [analyzeGo]
      exact ih _ hc2

/-- C9: the distinct-value count the dimension rule compares against the
threshold 100 excludes missing values — a text column whose distinct
non-missing values number fewer than 100 is placed in `dimensions` even
when it additionally contains missing values (and matches no earlier
rule). -/
theorem dimension_cardinality_excludes_missing (parse : Value → Option Int)
    (tbl : Table) (c : Column) (hc : c ∈ tbl)
    (hdt : c.dtype = Dtype.object)
    (hnt : timeMatch c = false)
    (hnu : nameAny (cleanName c.name) userNames = false)
    (hcard : nunique c < 100)
    (hmiss : Value.missing ∈ c.values) :
    c.name ∈ (analyze parse tbl).1.dimensions :=
  analyzeGo_dim_rule parse c hdt hnt hnu hcard tbl initCols hc

/-- C9, witnessed on a text column with a missing value. -/
theorem dimension_cardinality_excludes_missing_witness :
    nunique ⟨"cat", Dtype.object,
      [Value.text "a", Value.missing, Value.text "b"]⟩ < 100 ∧
    Value.missing ∈ [Value.text "a", Value.missing, Value.text "b"] ∧
    "cat" ∈ (analyze parse0 missingDimTbl).1.dimensions := by
  have h := dimension_cardinality_excludes_missing parse0 missingDimTbl
    ⟨"cat", Dtype.object, [Value.text "a", Value.missing, Value.text "b"]⟩
    (by decide) (by decide) (by decide) (by decide) (by decide) (by decide)
  exact ⟨by decide, by decide, h⟩

/-! ## The in-place rewrite of the time column -/

theorem analyzeGo_rewrite (parse : Value → Option Int) :
    ∀ (tbl : Table) (st : Cols), st.time = none →
    (∀ c ∈ tbl, c.name ≠ "") → (tbl.map Column.name).Nodup →
    (analyzeGo parse st tbl).2 =
      tbl.map (fun c => if (analyzeGo parse st tbl).1.time = some c.name
        then convertCol parse c else c) := by
  intro tbl
  induction tbl with
  | nil =>
    intro st _ _ _
    rfl
  | cons c rest ih =>
    intro st hst hne hnd
    simp only [List.map_cons, List.nodup_cons] at hnd
    by_cases hm : timeMatch c = true
    · have hguard : (!(truthy st.time) && timeMatch c) = true := by
        rw [hst]
        simp only [truthy, Bool.not_false, Bool.true_and]
        exact hm
      have hstep : analyzeStep parse st c =
          ({ st with time := some c.name }, convertCol parse c) := by
        unfold analyzeStep
        rw [if_pos hguard]
      have hname : c.name ≠ "" := hne c (List.mem_cons_self c rest)
      have htr : truthy ({ st with time := some c.name } : Cols).time = true := by
        simp [truthy, hname]
      have hpers := analyzeGo_time_persist parse rest
        ({ st with time := some c.name }) htr
      have hpT : (analyzeGo parse ({ st with time := some c.name }) rest).1.time =
          some c.name := hpers.1
      simp only [analyzeGo, hstep]
      rw [hpT, hpers.2]
      simp only [List.map_cons]
      rw [if_pos trivial]
      have hrest : ∀ c2 ∈ rest,
          (if (some c.name : Option String) = some c2.name
            then convertCol parse c2 else c2) = c2 := by
        intro c2 h2
        rw [if_neg]
        intro he
        exact hnd.1 (by
          rw [Option.some.inj he]
          exact List.mem_map_of_mem Column.name h2)
      have hmapid : List.map (fun c2 =>
          if (some c.name : Option String) = some c2.name
          then convertCol parse c2 else c2) rest = List.map id rest :=
        List.map_congr_left (fun a ha => (hrest a ha).trans rfl)
      rw [hmapid, List.map_id]
    · have hmf : timeMatch c = false := by
        cases hb : timeMatch c
        · rfl
        · exact absurd hb hm
      have hstep : analyzeStep parse st c = (laterRulesStep st c, c) := by
        unfold analyzeStep
        rw [if_neg (fun hcon => Bool.false_ne_true
          (by rw [hmf, Bool.and_false] at hcon; exact hcon))]
      have hst2 : (laterRulesStep st c).time = none := by
        rw [laterRulesStep_time]
        exact hst
      have hih := ih (laterRulesStep st c) hst2
        (fun c2 h2 => hne c2 (List.mem_cons_of_mem c h2)) hnd.2
      simp only [analyzeGo, hstep]
      simp only [List.map_cons]
      rw [if_neg ?hno, ← hih]
      case hno =>
        intro he
        rcases analyzeGo_time_mem parse rest (laterRulesStep st c) with h | ⟨c2, h2, he2⟩
        · rw [h, hst2] at he
          cases he
        · rw [he2] at he
          exact hnd.1 (by
            rw [← Option.some.inj he]
            exact List.mem_map_of_mem Column.name h2)

/-- C10: classification rewrites the stored table in at most one column —
every column whose name is not the assigned time column keeps exactly its
input values and dtype, and the assigned time column (when any) is
rewritten cell by cell to its parsed timestamps, with unparseable cells
coerced to missing. -/
theorem classification_rewrites_only_time (parse : Value → Option Int)
    (tbl : Table) (hne : ∀ c ∈ tbl, c.name ≠ "")
    (hnd : (tbl.map Column.name).Nodup) :
    (analyze parse tbl).2 =
      tbl.map (fun c => if (analyze parse tbl).1.time = some c.name
        then convertCol parse c else c) ∧
    (∀ c : Column, convertCol parse c =
      { c with
        dtype := Dtype.datetime64
        values := c.values.map (toDatetimeCoerce parse) }) ∧
    (∀ v, parse v = none → toDatetimeCoerce parse v = Value.missing) ∧
    (∀ v t, parse v = some t → toDatetimeCoerce parse v = Value.ts t) :=
  ⟨analyzeGo_rewrite parse tbl initCols rfl hne hnd,
   fun _ => rfl,
   fun v hv => by unfold toDatetimeCoerce; rw [hv],
   fun v t hv => by unfold toDatetimeCoerce; rw [hv]⟩

/-- C10, witnessed on a table whose time column holds one parseable and
one unparseable value. -/
theorem classification_rewrites_only_time_witness :
    (∀ c ∈ fullTbl, c.name ≠ "") ∧
    (fullTbl.map Column.name).Nodup ∧
    (analyze parse1 fullTbl).2 =
      fullTbl.map (fun c => if (analyze parse1 fullTbl).1.time = some c.name
        then convertCol parse1 c else c) :=
  ⟨by decide, by decide,
   (classification_rewrites_only_time parse1 fullTbl (by decide) (by decide)).1⟩

end MyDataAnalyst
